import Mathlib

/-!
Verification development for the exoplanets data-loading module
(`python/data_loading.py`).

The module has two routines:

* `load_exoplanet_data(project_path, name, display_head)` — ensures a cached
  CSV copy of a named dataset exists under `<project_path>/datasets/`,
  fetching from the remote archive only when the cache file is absent, then
  reads the cache file.

* `set_index_remove_null_columns(df, verbose)` — a recursive reducer over a
  pandas DataFrame: it drops fully-null rows, optionally promotes a unique
  non-float column to the index, drops columns whose (adjusted) null count is
  at least half the row count, restarting itself after every change, and
  finally returns `(columns_statistics, feature_counts)`.

The embedding below is value-level: a `Table` models a DataFrame as an index
(name + label cells) together with a list of named, dtyped columns whose cells
are `Option Val` (with `none` for NaN/null).  Cell values are symbolic atoms:
only equality and null-ness of cell values matter to the source code
(`isnull`, `nunique`), so float cells are represented by distinct atoms like
any other value; the dtype is carried as the string pandas reports (e.g.
"float64"), which is all the source ever inspects.
-/

/-- A non-null cell value.  Only equality on values is ever used by the
source (`nunique` counts distinct non-null values), so values are symbolic
atoms: integers and strings. -/
inductive Val where
  | vInt : Int → Val
  | vStr : String → Val
deriving DecidableEq

/-- One DataFrame column: its label, its pandas dtype (as the string pandas
reports, e.g. "int64", "float64", "object"), and its cells, `none` being
NaN/null. -/
structure Col where
  name : String
  dtype : String
  cells : List (Option Val)
deriving DecidableEq

/-- A DataFrame: row index (name and label cells) plus data columns.  A
default index has `indexName = none` and labels `0, 1, …, n-1`. -/
structure Table where
  indexName : Option String
  indexCells : List (Option Val)
  cols : List Col
deriving DecidableEq

/-- `df.shape[0]`: the number of rows, i.e. the length of the index. -/
def Table.nrows (t : Table) : Nat := t.indexCells.length

/-- The labels of `pd.RangeIndex(start=0, stop=n, step=1)`. -/
def rangeIndex (n : Nat) : List (Option Val) :=
  (List.range n).map (fun i => some (Val.vInt (Int.ofNat i)))

/-- Whether the cell of column `c` at row position `i` is null
(out-of-range positions read as null; they never arise on well-formed
tables). -/
def Col.isNullAt (c : Col) (i : Nat) : Bool := (c.cells.getD i none).isNone

/-- `df.isnull().all(axis=1)` at row position `i`: the row is null in every
column.  On a table with zero columns this is vacuously true, exactly as in
pandas. -/
def Table.rowIsNull (t : Table) (i : Nat) : Bool :=
  t.cols.all (fun c => c.isNullAt i)

/-- The row positions kept by `df = df[~null_rows]`. -/
def Table.keepIdx (t : Table) : List Nat :=
  (List.range t.nrows).filter (fun i => !(t.rowIsNull i))

/-- Restrict a column to the given row positions. -/
def Col.selectRows (c : Col) (idx : List Nat) : Col :=
  ⟨c.name, c.dtype, idx.map (fun i => c.cells.getD i none)⟩

/-- `df = df[~null_rows]` (line 38 of the source): keep only the rows that
are not null across every column.  Pandas keeps the original index labels of
the surviving rows, so after a genuine row drop the index is no longer a
`RangeIndex`. -/
def Table.filterNullRows (t : Table) : Table :=
  ⟨t.indexName,
   t.keepIdx.map (fun i => t.indexCells.getD i none),
   t.cols.map (fun c => c.selectRows t.keepIdx)⟩

/-- `df.isnull().sum()` for one column: its raw null count. -/
def Col.nullCount (c : Col) : Nat := c.cells.countP (fun x => x.isNone)

/-- `df.nunique()` for one column: the number of distinct non-null values. -/
def Col.nunique (c : Col) : Nat := (c.cells.filterMap id).dedup.length

/-- `nunique_counts[nunique_counts <= 1] = 0`: unique counts of at most one
are zeroed (non-informative column). -/
def adjUnique (c : Col) : Nat := if c.nunique ≤ 1 then 0 else c.nunique

/-- `null_counts_per_column[nunique_counts <= 1] = nrows`: the null count of
a non-informative column is forced to the full row count.  The mask is the
zeroed `nunique_counts`, whose entries are ≤ 1 exactly when the original
ones were. -/
def adjNull (nrows : Nat) (c : Col) : Nat :=
  if adjUnique c ≤ 1 then nrows else c.nullCount

/-- One row of the `columns_statistics` frame: column label, dtype, adjusted
null count, adjusted unique count. -/
structure ColStat where
  name : String
  dtype : String
  nullCount : Nat
  uniqueCount : Nat
deriving DecidableEq

/-- `columns_statistics = pd.concat([dtypes, null_counts, nunique], axis=1)`:
one statistics row per column, in column order. -/
def columnsStatistics (t : Table) : List ColStat :=
  t.cols.map (fun c => ⟨c.name, c.dtype, adjNull t.nrows c, adjUnique c⟩)

/-- The index-candidate test
`is_fully_unique & (columns_statistics['Data Type'] != 'float64')`:
the adjusted unique count equals the row count and the dtype is not
float64. -/
def candPred (n : Nat) (c : Col) : Bool :=
  decide (adjUnique c = n) && !decide (c.dtype = "float64")

/-- `can_be_index`: the labels (in column order) of the candidate columns. -/
def canBeIndex (t : Table) : List String :=
  (t.cols.filter (candPred t.nrows)).map Col.name

/-- `can_be_index[0]`. -/
def promoTarget (t : Table) : String := (canBeIndex t).headD ""

/-- The guard of the index-promotion branch: the table still uses the
default integer index (`df.index.name is None` and the index equals
`RangeIndex(0, len(df))`) and there is exactly one candidate column. -/
def promoCheck (t : Table) : Bool :=
  t.indexName.isNone
    && decide (t.indexCells = rangeIndex t.nrows)
    && decide ((canBeIndex t).length = 1)

/-- `df.set_index(nm, inplace=True)`: the named column becomes the index and
leaves the column set (the source asserts `nm not in df.columns`
afterwards). -/
def Table.setIndex (t : Table) (nm : String) : Table :=
  match t.cols.find? (fun c => decide (c.name = nm)) with
  | some c => ⟨some nm, c.cells, t.cols.filter (fun c2 => !decide (c2.name = nm))⟩
  | none => t

/-- The columns caught by
`is_high_null_columns = columns_statistics['Null Count'] >= nrows // 2`. -/
def highNullCols (t : Table) : List Col :=
  t.cols.filter (fun c => decide (t.nrows / 2 ≤ adjNull t.nrows c))

/-- `is_high_null_columns.any()`. -/
def dropCheck (t : Table) : Bool := !(highNullCols t).isEmpty

/-- `df.drop(null_columns.index.tolist(), axis=1, inplace=True)`: remove
every high-null column. -/
def dropHighNull (t : Table) : Table :=
  ⟨t.indexName, t.indexCells,
   t.cols.filter (fun c => !decide (t.nrows / 2 ≤ adjNull t.nrows c))⟩

/-- One row of the `feature_counts` frame.  The fields are integers because
`Rest = dtypes_counts - fully_unique_counts - no_nulls_counts` can be
negative (a column that is both null-free and fully unique is subtracted
twice). -/
structure FCRow where
  dtype : String
  noNulls : Int
  fullyUnique : Int
  rest : Int
  total : Int
deriving DecidableEq

/-- `dtypes.value_counts()` keys.  Pandas orders them by descending count
(ties in an unspecified internal order); the order of rows never matters to
any property below, so the keys are listed in first-appearance order. -/
def dtypeKeys (t : Table) : List String := (t.cols.map Col.dtype).dedup

/-- `dtypes.value_counts()` at one dtype: how many columns have it. -/
def countDtype (t : Table) (d : String) : Nat :=
  t.cols.countP (fun c => decide (c.dtype = d))

/-- `columns_statistics[columns_statistics['Null Count'] == 0]
['Data Type'].value_counts()` at one dtype. -/
def noNullsOf (t : Table) (d : String) : Nat :=
  t.cols.countP (fun c => decide (c.dtype = d) && decide (adjNull t.nrows c = 0))

/-- `columns_statistics[is_fully_unique]['Data Type'].value_counts()` at one
dtype. -/
def fullyUniqueOf (t : Table) (d : String) : Nat :=
  t.cols.countP (fun c => decide (c.dtype = d) && decide (adjUnique c = t.nrows))

/-- One per-dtype row of `feature_counts`:
`rest = dtypes_counts - fully_unique_counts - no_nulls_counts` and
`Total per dtype = feature_counts.sum(axis=1)`. -/
def fcRow (t : Table) (d : String) : FCRow :=
  let nn : Int := noNullsOf t d
  let fu : Int := fullyUniqueOf t d
  let rest : Int := (countDtype t d : Int) - fu - nn
  ⟨d, nn, fu, rest, nn + fu + rest⟩

/-- `feature_counts.loc['Total'] = feature_counts.sum(axis=0)`: the grand
total row sums every numeric field over the per-dtype rows. -/
def grandRow (rows : List FCRow) : FCRow :=
  ⟨"Total",
   (rows.map FCRow.noNulls).sum,
   (rows.map FCRow.fullyUnique).sum,
   (rows.map FCRow.rest).sum,
   (rows.map FCRow.total).sum⟩

/-- The whole `feature_counts` frame: one row per dtype, then the grand
total row. -/
def featureCounts (t : Table) : List FCRow :=
  (dtypeKeys t).map (fcRow t) ++ [grandRow ((dtypeKeys t).map (fcRow t))]

/-- The table `pd.DataFrame()`: no columns, no rows, default index. -/
def emptyTable : Table := ⟨none, [], []⟩

/-- Fuelled body of `set_index_remove_null_columns`.  Each pass filters the
fully-null rows, then either promotes the single index candidate and
restarts, or drops the high-null columns and restarts, or terminates with
the final table and its statistics.  `none` means the fuel ran out; fuel
`cols.length + 1` is proved sufficient below, since every restart removes at
least one column. -/
def reduceGo : Nat → Table → Option (Table × List ColStat × List FCRow)
  | 0, _ => none
  | fuel + 1, t =>
    let df := t.filterNullRows
    if promoCheck df then
      reduceGo fuel (df.setIndex (promoTarget df))
    else if dropCheck df then
      reduceGo fuel (dropHighNull df)
    else
      some (df, columnsStatistics df, featureCounts df)

/-- `set_index_remove_null_columns` together with its final internal table
state (the value of the local `df` at the return point, which the Python
function does not return). -/
def reduceResult (t : Table) : Table × List ColStat × List FCRow :=
  (reduceGo (t.cols.length + 1) t).getD (emptyTable, [], [])

/-- The value actually returned by the Python function:
`return columns_statistics, feature_counts` (line 133). -/
def set_index_remove_null_columns (df : Table) : List ColStat × List FCRow :=
  (reduceResult df).2

example : reduceResult emptyTable =
    (emptyTable, [], [⟨"Total", 0, 0, 0, 0⟩]) := by decide

/-!
Heap model of the reducer, for the in-place-mutation claim.  Python objects
live in a store (a list of tables, a reference being a position); the
function receives a reference.  Its first data operation,
`df = df[~null_rows]` (line 38), rebinds the local name `df` to a freshly
allocated filtered table, so it appends a new table to the store and
switches the local reference to it; the subsequent
`df.set_index(..., inplace=True)` and `df.drop(..., inplace=True)` mutate
the store at that fresh reference before the recursive call re-enters with
it.  Tables already in the store when the call begins are never written. -/

/-- Fuelled store-level reducer: mirrors `reduceGo`, but threads the store
and performs the in-place mutations by writing at the freshly allocated
reference. -/
def reduceStoreGo : Nat → List Table → Nat → Option (List Table × List ColStat × List FCRow)
  | 0, _, _ => none
  | fuel + 1, store, ref =>
    let t := store.getD ref emptyTable
    let df := t.filterNullRows
    let store1 := store ++ [df]
    let r1 := store.length
    if promoCheck df then
      reduceStoreGo fuel (store1.set r1 (df.setIndex (promoTarget df))) r1
    else if dropCheck df then
      reduceStoreGo fuel (store1.set r1 (dropHighNull df)) r1
    else
      some (store1, columnsStatistics df, featureCounts df)

/-- The store-level call `set_index_remove_null_columns(store[ref])`: the
final store together with the returned statistics pair. -/
def reduceStore (store : List Table) (ref : Nat) : List Table × List ColStat × List FCRow :=
  (reduceStoreGo ((store.getD ref emptyTable).cols.length + 1) store ref).getD
    (store, [], [])

/-!
Model of `load_exoplanet_data` (lines 8-31).  The filesystem is a list of
(path, contents) pairs; the remote archive query followed by the
dex-column-unit stripping and `table.write(filename, format='csv',
overwrite=True)` is abstracted as writing a given CSV string `remoteCSV`
(the claims below do not depend on the fetched contents, only on when the
fetch happens).  Display of the head rows is ignored (pure output). -/

/-- `name.endswith('.csv')`, modelled on the character sequence (Python's
`endswith` is a suffix test on the string's characters). -/
def endsWithCsv (name : String) : Bool := ".csv".data.isSuffixOf name.data

/-- `filename = f"{name}.csv" if not name.endswith('.csv') else name`. -/
def cacheFileName (name : String) : String :=
  if endsWithCsv name then name else name ++ ".csv"

/-- `os.path.join(project_path, 'datasets', filename)`. -/
def cachePath (projectPath name : String) : String :=
  projectPath ++ "/datasets/" ++ cacheFileName name

/-- A filesystem: paths mapped to file contents, newest entry first. -/
structure FileSys where
  files : List (String × String)
deriving DecidableEq

/-- `os.path.exists(filename)`. -/
def FileSys.pathExists (fs : FileSys) (p : String) : Bool :=
  fs.files.any (fun e => decide (e.1 = p))

/-- `pd.read_csv(filename)` at the level of raw contents (empty if the path
is absent, which the source never does: it only reads after ensuring the
file exists). -/
def FileSys.readFile (fs : FileSys) (p : String) : String :=
  match fs.files.find? (fun e => decide (e.1 = p)) with
  | some e => e.2
  | none => ""

/-- `table.write(filename, format='csv', overwrite=True)`. -/
def FileSys.writeFile (fs : FileSys) (p c : String) : FileSys :=
  ⟨(p, c) :: fs.files.filter (fun e => !decide (e.1 = p))⟩

/-- `load_exoplanet_data(project_path, name)`: returns the filesystem after
the call, the loaded CSV contents, and whether the remote fetch was
performed. -/
def load_exoplanet_data (remoteCSV : String) (fs : FileSys)
    (projectPath name : String) : FileSys × String × Bool :=
  let p := cachePath projectPath name
  if fs.pathExists p then
    (fs, fs.readFile p, false)
  else
    let fs1 := fs.writeFile p remoteCSV
    (fs1, fs1.readFile p, true)

/-- One pass of the reducer viewed as a step function: `some` is a restart
on the new state (after an index promotion or a column drop), `none` means
the pass terminates. -/
def stepTable (t : Table) : Option Table :=
  if promoCheck t.filterNullRows then
    some (t.filterNullRows.setIndex (promoTarget t.filterNullRows))
  else if dropCheck t.filterNullRows then
    some (dropHighNull t.filterNullRows)
  else none

/-- Columns of dtype `d` that are both null-free and fully unique (counted
by `no_nulls_counts` and by `fully_unique_counts`, hence subtracted twice
from `rest_counts`). -/
def bothOf (t : Table) (d : String) : Nat :=
  t.cols.countP (fun c => decide (c.dtype = d) && decide (adjNull t.nrows c = 0)
    && decide (adjUnique c = t.nrows))

/-- Columns of dtype `d` that are neither null-free nor fully unique. -/
def neitherOf (t : Table) (d : String) : Nat :=
  t.cols.countP (fun c => decide (c.dtype = d) && !decide (adjNull t.nrows c = 0)
    && !decide (adjUnique c = t.nrows))

/-! Concrete tables used to instantiate the theorems below. -/

/-- A single fully-unique, null-free float64 column: no promotion (float),
no drop, and `Rest = 1 - 1 - 1 = -1` in the feature counts. -/
def tFloatOnly : Table :=
  ⟨none, rangeIndex 2, [⟨"F", "float64", [some (Val.vInt 10), some (Val.vInt 20)]⟩]⟩

/-- The column of `tFloatOnly`. -/
def fColFO : Col := ⟨"F", "float64", [some (Val.vInt 10), some (Val.vInt 20)]⟩

/-- One float64 column with a null in its first row: the first row is
dropped, then the column (non-informative, null count forced to 1 ≥ 1/2). -/
def uHighNull : Table :=
  ⟨none, rangeIndex 2, [⟨"X", "float64", [none, some (Val.vInt 1)]⟩]⟩

/-- The column of `uHighNull` after its first row is filtered away. -/
def xColHN : Col := ⟨"X", "float64", [some (Val.vInt 1)]⟩

/-- A zero-row table with two non-float columns: both count as fully unique
(0 = 0), yet every column is dropped (null count 0 ≥ 0 // 2). -/
def tZeroRows : Table := ⟨none, [], [⟨"A", "int64", []⟩, ⟨"B", "int64", []⟩]⟩

/-- Two fully-unique non-float columns over two rows: an ambiguous
index-candidate set. -/
def tTwoUnique : Table :=
  ⟨none, rangeIndex 2,
   [⟨"P", "int64", [some (Val.vInt 1), some (Val.vInt 2)]⟩,
    ⟨"Q", "object", [some (Val.vStr "a"), some (Val.vStr "b")]⟩]⟩

/-- The first column of `tTwoUnique`. -/
def pCol : Col := ⟨"P", "int64", [some (Val.vInt 1), some (Val.vInt 2)]⟩

/-- A table whose reduction drops a row and both columns, so the final
internal table differs from the input. -/
def tMut : Table :=
  ⟨none, rangeIndex 2,
   [⟨"X", "int64", [some (Val.vInt 5), none]⟩, ⟨"Y", "float64", [none, none]⟩]⟩

/-- The concrete instance of the spec's promotion example: A all-unique
integers, B all null, C a single repeated value. -/
def tABC : Table :=
  ⟨none, rangeIndex 3,
   [⟨"A", "int64", [some (Val.vInt 1), some (Val.vInt 2), some (Val.vInt 3)]⟩,
    ⟨"B", "float64", [none, none, none]⟩,
    ⟨"C", "object", List.replicate 3 (some (Val.vStr "x"))⟩]⟩

/-- A table with no columns but one row, for the zero-column claim. -/
def tNoCols : Table := ⟨some "Z", [some (Val.vInt 3)], []⟩

/-! ### Generic list lemmas -/

/-- Reading every position of a list in order reproduces the list. -/
theorem getD_range_map {α : Type} (l : List α) (d : α) :
    (List.range l.length).map (fun i => l.getD i d) = l := by
  induction l with
  | nil => rfl
  | cons a tl ih =>
    rw [List.length_cons, List.range_succ_eq_map, List.map_cons, List.map_map]
    simp only [Function.comp_def, Nat.succ_eq_add_one, List.getD_cons_zero,
      List.getD_cons_succ]
    rw [ih]

/-- A filter that loses at least one element is strictly shorter. -/
theorem length_filter_lt {α : Type} {p : α → Bool} {l : List α} {a : α}
    (ha : a ∈ l) (hpa : p a = false) : (l.filter p).length < l.length := by
  induction l with
  | nil => cases ha
  | cons b tl ih =>
    rcases List.mem_cons.mp ha with rfl | hmem
    · rw [List.filter_cons, hpa]
      simpa using Nat.lt_succ_of_le (List.length_filter_le _ _)
    · rw [List.filter_cons]
      cases hpb : p b
      · simpa using Nat.lt_succ_of_lt (ih hmem)
      · simpa using Nat.succ_lt_succ (ih hmem)

/-- If `filterMap id` loses no length, every entry is `some`. -/
theorem all_isSome_of_filterMap_length {α : Type} {l : List (Option α)}
    (h : (l.filterMap id).length = l.length) : ∀ x ∈ l, x.isSome = true := by
  induction l with
  | nil => intro x hx; cases hx
  | cons a tl ih =>
    cases a with
    | none =>
      exfalso
      rw [List.filterMap_cons_none rfl, List.length_cons] at h
      have := List.length_filterMap_le (id : Option α → Option α) tl
      omega
    | some v =>
      intro x hx
      rw [@List.filterMap_cons_some _ _ id (some v) tl v rfl, List.length_cons,
        List.length_cons] at h
      rcases List.mem_cons.mp hx with rfl | hmem
      · rfl
      · exact ih (by omega) x hmem

/-- Setting the position just past `l` in `l ++ [a]` replaces `a`. -/
theorem set_append_length {α : Type} (l : List α) (a b : α) :
    (l ++ [a]).set l.length b = l ++ [b] := by
  induction l with
  | nil => rfl
  | cons c tl ih => exact congrArg (List.cons c) ih

/-- Reading the position just past `l` in `l ++ [a]` gives `a`. -/
theorem getD_append_length {α : Type} (l : List α) (a d : α) :
    (l ++ [a]).getD l.length d = a := by
  induction l with
  | nil => rfl
  | cons c tl ih => exact ih

/-- A replicated list has at most one distinct value. -/
theorem dedup_replicate_length_le {α : Type} [DecidableEq α] (n : Nat) (v : α) :
    (List.replicate n v).dedup.length ≤ 1 := by
  induction n with
  | zero => simp
  | succ m ih =>
    rw [List.replicate_succ]
    cases m with
    | zero => simp
    | succ k =>
      rw [List.dedup_cons_of_mem (by simp [List.mem_replicate])]
      exact ih

/-- `filterMap id` over an all-null column is empty. -/
theorem filterMap_id_replicate_none {α : Type} (n : Nat) :
    (List.replicate n (none : Option α)).filterMap id = [] := by
  induction n with
  | zero => rfl
  | succ m ih => rw [List.replicate_succ, List.filterMap_cons_none rfl, ih]

/-- `filterMap id` over a constant non-null column keeps every value. -/
theorem filterMap_id_replicate_some {α : Type} (n : Nat) (v : α) :
    (List.replicate n (some v)).filterMap id = List.replicate n v := by
  induction n with
  | zero => rfl
  | succ m ih =>
    rw [List.replicate_succ, List.replicate_succ,
      @List.filterMap_cons_some _ _ id (some v) (List.replicate m (some v)) v rfl, ih]

/-- `getD` of a mapped list inside the range. -/
theorem getD_map_lt {α β : Type} (f : α → β) (l : List α) (j : Nat)
    (hj : j < l.length) (d : β) :
    (l.map f).getD j d = f (l.get ⟨j, hj⟩) := by
  rw [List.getD_eq_getElem?_getD, List.getElem?_map, List.getElem?_eq_getElem hj]
  rfl

/-! ### Structural lemmas about the reducer's building blocks -/

/-- Row filtering does not change the number of columns. -/
theorem filterNullRows_cols_length (t : Table) :
    t.filterNullRows.cols.length = t.cols.length := by
  simp [Table.filterNullRows]

/-- Row filtering keeps the index name. -/
theorem filterNullRows_indexName (t : Table) :
    t.filterNullRows.indexName = t.indexName := rfl

/-- The filtered table has as many rows as kept positions. -/
theorem filterNullRows_nrows (t : Table) :
    t.filterNullRows.nrows = t.keepIdx.length := by
  simp [Table.filterNullRows, Table.nrows]

/-- Every column of the filtered table has exactly one cell per row. -/
theorem filterNullRows_colLen (t : Table) :
    ∀ c ∈ t.filterNullRows.cols, c.cells.length = t.filterNullRows.nrows := by
  intro c hc
  simp only [Table.filterNullRows] at hc
  obtain ⟨c0, _, rfl⟩ := List.mem_map.mp hc
  simp [Col.selectRows, filterNullRows_nrows, Table.filterNullRows, Table.nrows]

/-- No row of the filtered table is fully null. -/
theorem filterNullRows_rowIsNull (t : Table) (j : Nat)
    (hj : j < t.filterNullRows.nrows) : t.filterNullRows.rowIsNull j = false := by
  rw [filterNullRows_nrows] at hj
  have hmem : t.keepIdx.get ⟨j, hj⟩ ∈ t.keepIdx := List.get_mem _ _ _
  have hpred := (List.mem_filter.mp hmem).2
  rw [Bool.not_eq_true'] at hpred
  rw [Bool.eq_false_iff]
  intro hall
  rw [Table.rowIsNull, List.all_eq_true] at hall
  have : t.rowIsNull (t.keepIdx.get ⟨j, hj⟩) = true := by
    rw [Table.rowIsNull, List.all_eq_true]
    intro c hc
    have hmm : c.selectRows t.keepIdx ∈ t.filterNullRows.cols := by
      simp only [Table.filterNullRows]
      exact List.mem_map_of_mem _ hc
    have hthis := hall _ hmm
    have hcell : (c.selectRows t.keepIdx).isNullAt j
        = c.isNullAt (t.keepIdx.get ⟨j, hj⟩) := by
      simp only [Col.selectRows, Col.isNullAt]
      rw [getD_map_lt _ _ j hj]
    rwa [hcell] at hthis
  rw [this] at hpred
  cases hpred

/-- Filtering a table that has no fully-null row (and coherent column
lengths) is the identity. -/
theorem filterNullRows_eq_self {t : Table}
    (hlen : ∀ c ∈ t.cols, c.cells.length = t.nrows)
    (hrow : ∀ i, i < t.nrows → t.rowIsNull i = false) :
    t.filterNullRows = t := by
  have hkeep : t.keepIdx = List.range t.nrows := by
    rw [Table.keepIdx, List.filter_eq_self]
    intro i hi
    rw [hrow i (List.mem_range.mp hi)]
    rfl
  obtain ⟨nm, idx, cs⟩ := t
  simp only [Table.filterNullRows, Table.mk.injEq, true_and]
  rw [hkeep]
  constructor
  · exact getD_range_map idx none
  · have : ∀ c ∈ cs, c.selectRows (List.range idx.length) = c := by
      intro c hc
      have hc' : c.cells.length = idx.length := hlen c hc
      simp only [Col.selectRows, ← hc']
      rw [getD_range_map c.cells none]
    calc cs.map (fun c => c.selectRows (List.range idx.length))
        = cs.map id := List.map_congr_left this
      _ = cs := List.map_id cs

/-- Row filtering is idempotent. -/
theorem filterNullRows_idem (t : Table) :
    t.filterNullRows.filterNullRows = t.filterNullRows :=
  filterNullRows_eq_self (filterNullRows_colLen t) (filterNullRows_rowIsNull t)

/-- A successful index promotion removes one column. -/
theorem setIndex_cols_lt {t : Table} (h : promoCheck t = true) :
    (t.setIndex (promoTarget t)).cols.length < t.cols.length := by
  have hlen : (canBeIndex t).length = 1 := by
    simp only [promoCheck, Bool.and_eq_true, decide_eq_true_eq] at h
    exact h.2
  have hfl : (t.cols.filter (candPred t.nrows)).length = 1 := by
    rw [canBeIndex, List.length_map] at hlen
    exact hlen
  obtain ⟨c, hc⟩ := List.length_eq_one.mp hfl
  have hcmem : c ∈ t.cols ∧ candPred t.nrows c = true := by
    have : c ∈ t.cols.filter (candPred t.nrows) := by rw [hc]; exact List.mem_cons_self _ _
    exact List.mem_filter.mp this
  have htarget : promoTarget t = c.name := by
    rw [promoTarget, canBeIndex, hc]
    rfl
  have hfind : (t.cols.find? (fun c2 => decide (c2.name = c.name))).isSome = true := by
    rw [List.find?_isSome]
    exact ⟨c, hcmem.1, by simp⟩
  rw [htarget, Table.setIndex]
  obtain ⟨c', hc'⟩ := Option.isSome_iff_exists.mp hfind
  rw [hc']
  exact length_filter_lt hcmem.1 (by simp)

/-- Dropping the high-null columns, when there is one, removes at least one
column. -/
theorem dropHighNull_cols_lt {t : Table} (h : dropCheck t = true) :
    (dropHighNull t).cols.length < t.cols.length := by
  rw [dropCheck, Bool.not_eq_true', ← Bool.not_eq_true, List.isEmpty_iff] at h
  obtain ⟨c, hc⟩ := List.exists_mem_of_ne_nil _ h
  have hcm := List.mem_filter.mp hc
  exact length_filter_lt hcm.1 (by simp [hcm.2])

/-- The fuel `cols.length + 1` always suffices: every restart removes at
least one column. -/
theorem reduceGo_isSome : ∀ (fuel : Nat) (t : Table), t.cols.length < fuel →
    (reduceGo fuel t).isSome = true := by
  intro fuel
  induction fuel with
  | zero => intro t ht; exact absurd ht (Nat.not_lt_zero _)
  | succ m ih =>
    intro t ht
    simp only [reduceGo]
    by_cases hp : promoCheck t.filterNullRows = true
    · rw [if_pos hp]
      apply ih
      have h1 := setIndex_cols_lt hp
      have h2 := filterNullRows_cols_length t
      omega
    · rw [if_neg hp]
      by_cases hd : dropCheck t.filterNullRows = true
      · rw [if_pos hd]
        apply ih
        have h1 := dropHighNull_cols_lt hd
        have h2 := filterNullRows_cols_length t
        omega
      · rw [if_neg hd]
        rfl

/-- `reduceResult` is the (always present) value of the fuelled recursion. -/
theorem reduceGo_reduceResult (t : Table) :
    reduceGo (t.cols.length + 1) t = some (reduceResult t) := by
  have h := reduceGo_isSome (t.cols.length + 1) t (Nat.lt_succ_self _)
  obtain ⟨r, hr⟩ := Option.isSome_iff_exists.mp h
  rw [reduceResult, hr]
  rfl

/-- Whatever the recursion returns is a terminal state: already row-filtered,
with both restart guards false, carrying its own statistics. -/
theorem reduceGo_terminal : ∀ (fuel : Nat) (t : Table)
    (r : Table × List ColStat × List FCRow), reduceGo fuel t = some r →
    r.1.filterNullRows = r.1 ∧ promoCheck r.1 = false ∧ dropCheck r.1 = false ∧
      r.2.1 = columnsStatistics r.1 ∧ r.2.2 = featureCounts r.1 := by
  intro fuel
  induction fuel with
  | zero => intro t r h; simp [reduceGo] at h
  | succ m ih =>
    intro t r h
    simp only [reduceGo] at h
    by_cases hp : promoCheck t.filterNullRows = true
    · rw [if_pos hp] at h
      exact ih _ _ h
    · rw [if_neg hp] at h
      by_cases hd : dropCheck t.filterNullRows = true
      · rw [if_pos hd] at h
        exact ih _ _ h
      · rw [if_neg hd] at h
        obtain rfl := Option.some_inj.mp h
        exact ⟨filterNullRows_idem t, Bool.not_eq_true _ ▸ hp,
          Bool.not_eq_true _ ▸ hd, rfl, rfl⟩

/-- Terminal-state properties of `reduceResult` itself. -/
theorem reduceResult_terminal (t : Table) :
    (reduceResult t).1.filterNullRows = (reduceResult t).1 ∧
      promoCheck (reduceResult t).1 = false ∧ dropCheck (reduceResult t).1 = false ∧
      (reduceResult t).2.1 = columnsStatistics (reduceResult t).1 ∧
      (reduceResult t).2.2 = featureCounts (reduceResult t).1 :=
  reduceGo_terminal _ t _ (reduceGo_reduceResult t)

/-! ### Claim theorems -/

/-- C4: the reducer is idempotent — running it again on the table state it
produced returns the same table, the same column statistics, and the same
feature counts (a fixed point is reached). -/
theorem c4_reducer_idempotent (t : Table) :
    reduceResult ((reduceResult t).1) = reduceResult t := by
  obtain ⟨hfil, hp, hd, hs, hf⟩ := reduceResult_terminal t
  conv_lhs => rw [reduceResult]
  simp only [reduceGo, hfil, hp, hd, Bool.false_eq_true, if_false]
  rw [← hs, ← hf]
  rfl

/-- C9: in the produced Feature Counts the grand-total row equals, field by
field, the sum of all per-dtype rows, and each per-dtype row's
'Total per dtype' equals the sum of its three category counts. -/
theorem c9_feature_count_totals (t : Table) :
    ∃ rows g, (reduceResult t).2.2 = rows ++ [g] ∧
      g.noNulls = (rows.map FCRow.noNulls).sum ∧
      g.fullyUnique = (rows.map FCRow.fullyUnique).sum ∧
      g.rest = (rows.map FCRow.rest).sum ∧
      g.total = (rows.map FCRow.total).sum ∧
      rows.all (fun r => decide (r.total = r.noNulls + r.fullyUnique + r.rest)) = true := by
  obtain ⟨_, _, _, _, hf⟩ := reduceResult_terminal t
  refine ⟨(dtypeKeys (reduceResult t).1).map (fcRow (reduceResult t).1),
    grandRow ((dtypeKeys (reduceResult t).1).map (fcRow (reduceResult t).1)),
    ?_, rfl, rfl, rfl, rfl, ?_⟩
  · rw [hf]
    rfl
  · rw [List.all_eq_true]
    intro r hr
    obtain ⟨d, _, rfl⟩ := List.mem_map.mp hr
    simp [fcRow]

/-- C7: the reducer terminates on every table — every restart (index
promotion or column drop) strictly decreases the column count, so fuel
`cols.length + 1` always reaches the fixed point. -/
theorem c7_reducer_terminates :
    (∀ t t' : Table, stepTable t = some t' →
      t'.cols.length < t.cols.length ∧
      ∀ fuel : Nat, reduceGo (fuel + 1) t = reduceGo fuel t') ∧
    (∀ t : Table, (reduceGo (t.cols.length + 1) t).isSome = true) := by
  constructor
  · intro t t' h
    rw [stepTable] at h
    by_cases hp : promoCheck t.filterNullRows = true
    · rw [if_pos hp] at h
      obtain rfl := Option.some_inj.mp h
      constructor
      · have h1 := setIndex_cols_lt hp
        have h2 := filterNullRows_cols_length t
        omega
      · intro fuel
        simp only [reduceGo]
        rw [if_pos hp]
    · rw [if_neg hp] at h
      by_cases hd : dropCheck t.filterNullRows = true
      · rw [if_pos hd] at h
        obtain rfl := Option.some_inj.mp h
        constructor
        · have h1 := dropHighNull_cols_lt hd
          have h2 := filterNullRows_cols_length t
          omega
        · intro fuel
          simp only [reduceGo]
          rw [if_neg hp, if_pos hd]
      · rw [if_neg hd] at h
        cases h
  · intro t
    exact reduceGo_isSome _ t (Nat.lt_succ_self _)

/-- Witness for C7 at a concrete table: the first pass of `uHighNull` is a
column drop, and it indeed loses a column. -/
theorem c7_reducer_terminates_witness :
    (dropHighNull uHighNull.filterNullRows).cols.length < uHighNull.cols.length :=
  (c7_reducer_terminates.1 uHighNull (dropHighNull uHighNull.filterNullRows)
    (by decide)).1

/-- C10: once a pass leaves zero columns, the next restart's row filter
drops every remaining row (each row is vacuously null across all columns),
so a zero-column reduction always ends at shape 0 × 0 — never with rows but
no columns. -/
theorem c10_zero_columns_zero_rows :
    (∀ t : Table, t.cols = [] →
      t.filterNullRows.indexCells = [] ∧
      reduceResult t = (⟨t.indexName, [], []⟩, [], [⟨"Total", 0, 0, 0, 0⟩])) ∧
    (∀ t : Table, (reduceResult t).1.cols = [] → (reduceResult t).1.nrows = 0) := by
  have hstep : ∀ t : Table, t.cols = [] → t.filterNullRows = ⟨t.indexName, [], []⟩ := by
    intro t ht
    have hkeep : t.keepIdx = [] := by
      rw [Table.keepIdx, List.filter_eq_nil_iff]
      intro a _
      rw [Table.rowIsNull, ht]
      simp
    rw [Table.filterNullRows, hkeep, ht]
    rfl
  constructor
  · intro t ht
    have hfil := hstep t ht
    constructor
    · rw [hfil]
    · rw [reduceResult, ht]
      simp only [List.length_nil, reduceGo, hfil]
      have hpc : promoCheck ⟨t.indexName, [], []⟩ = false := by
        have : (canBeIndex ⟨t.indexName, [], []⟩).length = 0 := rfl
        rw [promoCheck, this]
        simp
      have hdc : dropCheck ⟨t.indexName, [], []⟩ = false := rfl
      rw [if_neg (by simp [hpc]), if_neg (by simp [hdc])]
      simp [columnsStatistics, featureCounts, dtypeKeys, grandRow, fcRow]
  · intro t hcols
    obtain ⟨hfil, _, _, _, _⟩ := reduceResult_terminal t
    have h2 := hstep (reduceResult t).1 hcols
    rw [hfil] at h2
    rw [Table.nrows, h2]
    rfl

/-- Witness for C10: a one-row, zero-column table loses its row, and the
reduction of `tMut` ends with zero columns and zero rows. -/
theorem c10_zero_columns_zero_rows_witness :
    (tNoCols.filterNullRows.indexCells = [] ∧
      reduceResult tNoCols = (⟨some "Z", [], []⟩, [], [⟨"Total", 0, 0, 0, 0⟩])) ∧
    (reduceResult tMut).1.nrows = 0 :=
  ⟨c10_zero_columns_zero_rows.1 tNoCols (by decide),
   c10_zero_columns_zero_rows.2 tMut (by decide)⟩

/-- C1: after the reducer terminates no remaining column has a null count
of at least half the row count (both for the adjusted and the raw null
count); and in any pass that reaches the pruning step, every column whose
adjusted null count is at least half the row count is dropped and the
procedure restarts on the new state. -/
theorem c1_half_null_columns_pruned :
    (∀ t : Table, ∀ c ∈ (reduceResult t).1.cols,
      2 * adjNull (reduceResult t).1.nrows c < (reduceResult t).1.nrows ∧
      2 * c.nullCount < (reduceResult t).1.nrows) ∧
    (∀ u : Table, promoCheck u.filterNullRows = false →
      ∀ c ∈ u.filterNullRows.cols,
        u.filterNullRows.nrows ≤ 2 * adjNull u.filterNullRows.nrows c →
        dropCheck u.filterNullRows = true ∧
        c ∉ (dropHighNull u.filterNullRows).cols ∧
        reduceGo (u.cols.length + 1) u = reduceGo u.cols.length (dropHighNull u.filterNullRows)) := by
  constructor
  · intro t c hc
    obtain ⟨_, _, hd, _, _⟩ := reduceResult_terminal t
    rw [dropCheck, Bool.not_eq_false'] at hd
    have hnil : highNullCols (reduceResult t).1 = [] := List.isEmpty_iff.mp hd
    have hpred := List.filter_eq_nil_iff.mp hnil c hc
    simp only [decide_eq_true_eq] at hpred
    have h1 : ¬ ((reduceResult t).1.nrows / 2 ≤ adjNull (reduceResult t).1.nrows c) := hpred
    refine ⟨by omega, ?_⟩
    rw [adjNull] at h1
    by_cases hu : adjUnique c ≤ 1
    · rw [if_pos hu] at h1
      omega
    · rw [if_neg hu] at h1
      omega
  · intro u hp c hc hbig
    have hpred : decide (u.filterNullRows.nrows / 2 ≤ adjNull u.filterNullRows.nrows c) = true := by
      simp only [decide_eq_true_eq]
      omega
    have hcmem : c ∈ highNullCols u.filterNullRows := List.mem_filter.mpr ⟨hc, hpred⟩
    have hdrop : dropCheck u.filterNullRows = true := by
      rcases hl : highNullCols u.filterNullRows with _ | ⟨a, l⟩
      · rw [hl] at hcmem
        cases hcmem
      · rw [dropCheck, hl]
        rfl
    refine ⟨hdrop, ?_, ?_⟩
    · intro hin
      have h2 := (List.mem_filter.mp hin).2
      rw [hpred] at h2
      cases h2
    · simp only [reduceGo]
      rw [if_neg (by simp [hp]), if_pos hdrop]

/-- Witness for C1 at concrete tables: the surviving float column of
`tFloatOnly` has fewer nulls than half the rows, and the non-informative
column of `uHighNull` is dropped with a restart. -/
theorem c1_half_null_columns_pruned_witness :
    (2 * adjNull (reduceResult tFloatOnly).1.nrows fColFO < (reduceResult tFloatOnly).1.nrows) ∧
    (dropCheck uHighNull.filterNullRows = true ∧
      xColHN ∉ (dropHighNull uHighNull.filterNullRows).cols) := by
  have h1 := c1_half_null_columns_pruned.1 tFloatOnly fColFO (by decide)
  have h2 := c1_half_null_columns_pruned.2 uHighNull (by decide) xColHN (by decide) (by decide)
  exact ⟨h1.1, h2.1, h2.2.1⟩

/-- Inclusion–exclusion for the `Rest` column: total minus fully-unique
minus null-free equals (neither category) minus (both categories). -/
theorem rest_neither_both (L : List Col) (n : Nat) (d : String) :
    ((L.countP (fun c => decide (c.dtype = d)) : Int)
      - L.countP (fun c => decide (c.dtype = d) && decide (adjUnique c = n))
      - L.countP (fun c => decide (c.dtype = d) && decide (adjNull n c = 0)))
    = (L.countP (fun c => decide (c.dtype = d) && !decide (adjNull n c = 0)
        && !decide (adjUnique c = n)) : Int)
      - L.countP (fun c => decide (c.dtype = d) && decide (adjNull n c = 0)
        && decide (adjUnique c = n)) := by
  induction L with
  | nil => simp
  | cons c tl ih =>
    simp only [List.countP_cons]
    by_cases h1 : c.dtype = d <;> by_cases h2 : adjNull n c = 0 <;>
      by_cases h3 : adjUnique c = n <;>
      simp [h1, h2, h3] <;> omega

/-- The `Rest` entry of a per-dtype feature-count row equals the number of
columns in neither category minus the number in both. -/
theorem fcRow_rest_eq (t : Table) (d : String) :
    (fcRow t d).rest = (neitherOf t d : Int) - (bothOf t d : Int) := by
  have h := rest_neither_both t.cols t.nrows d
  simp only [fcRow, noNullsOf, fullyUniqueOf, countDtype, neitherOf, bothOf]
  exact h

/-- C3 counterexample: for the single fully-unique null-free float64 column
of `tFloatOnly`, the produced Feature Counts row has `Rest = -1`: the
null-free and fully-unique categories overlap, the column is counted twice,
and `Rest` is negative — not a count of the remaining columns. -/
theorem c3_counterexample :
    (reduceResult tFloatOnly).2.2 =
      [⟨"float64", 1, 1, -1, 1⟩, ⟨"Total", 1, 1, -1, 1⟩] ∧
    ((reduceResult tFloatOnly).2.2.map FCRow.rest).any (fun r => decide (r < 0)) = true := by
  constructor
  · decide
  · decide

/-- C3 amended: the per-dtype Feature Counts report the null-free count and
the fully-unique count of the remaining columns, but the two categories may
overlap; `Rest` is total minus the two counts, which equals (columns in
neither category) − (columns in both); in particular `Rest` is a
non-negative count whenever no column of that dtype is in both categories,
and it can be negative when one is (as in the counterexample); the three
counts always sum to the dtype's column total. -/
theorem c3_feature_count_categories (t : Table) :
    ∃ rows, (reduceResult t).2.2 = rows ++ [grandRow rows] ∧
      rows = (dtypeKeys (reduceResult t).1).map (fcRow (reduceResult t).1) ∧
      ∀ d ∈ dtypeKeys (reduceResult t).1,
        (fcRow (reduceResult t).1 d).noNulls = (noNullsOf (reduceResult t).1 d : Int) ∧
        (fcRow (reduceResult t).1 d).fullyUnique
            = (fullyUniqueOf (reduceResult t).1 d : Int) ∧
        (fcRow (reduceResult t).1 d).noNulls + (fcRow (reduceResult t).1 d).fullyUnique
            + (fcRow (reduceResult t).1 d).rest = (countDtype (reduceResult t).1 d : Int) ∧
        (fcRow (reduceResult t).1 d).rest
            = (neitherOf (reduceResult t).1 d : Int) - (bothOf (reduceResult t).1 d : Int) ∧
        (bothOf (reduceResult t).1 d = 0 → 0 ≤ (fcRow (reduceResult t).1 d).rest) := by
  obtain ⟨_, _, _, _, hf⟩ := reduceResult_terminal t
  refine ⟨(dtypeKeys (reduceResult t).1).map (fcRow (reduceResult t).1), ?_, rfl, ?_⟩
  · rw [hf]
    rfl
  · intro d _
    have hrest := fcRow_rest_eq (reduceResult t).1 d
    refine ⟨rfl, rfl, ?_, hrest, ?_⟩
    · simp only [fcRow]
      ring
    · intro hb
      rw [hrest, hb]
      have : (0 : Int) ≤ (neitherOf (reduceResult t).1 d : Int) := Int.ofNat_nonneg _
      omega

/-- Witness for C3's amended statement at the concrete float table: its
`Rest` of −1 is (neither = 0) − (both = 1). -/
theorem c3_feature_count_categories_witness :
    (fcRow (reduceResult tFloatOnly).1 "float64").rest =
      (neitherOf (reduceResult tFloatOnly).1 "float64" : Int)
        - (bothOf (reduceResult tFloatOnly).1 "float64" : Int) := by
  obtain ⟨rows, h1, h2, h3⟩ := c3_feature_count_categories tFloatOnly
  exact (h3 "float64" (by decide)).2.2.2.1

/-- The adjusted unique count is never exactly 1. -/
theorem adjUnique_ne_one (c : Col) : adjUnique c ≠ 1 := by
  rw [adjUnique]
  by_cases h : c.nunique ≤ 1
  · rw [if_pos h]
    omega
  · rw [if_neg h]
    omega

/-- A fully-unique column of a table with at least two rows has no null
cell, a zero raw null count, and a zero adjusted null count. -/
theorem cand_facts {c : Col} {n : Nat} (h2 : 2 ≤ n) (hu : adjUnique c = n)
    (hl : c.cells.length = n) :
    (∀ i, i < n → c.isNullAt i = false) ∧ c.nullCount = 0 ∧ adjNull n c = 0 := by
  have hnu : c.nunique = n := by
    rw [adjUnique] at hu
    by_cases h : c.nunique ≤ 1
    · rw [if_pos h] at hu
      omega
    · rwa [if_neg h] at hu
  have hfm : (c.cells.filterMap id).length = c.cells.length := by
    have hded := (c.cells.filterMap id).dedup_sublist.length_le
    have hle := List.length_filterMap_le (id : Option Val → Option Val) c.cells
    rw [Col.nunique] at hnu
    omega
  have hsome := all_isSome_of_filterMap_length hfm
  have hzero : c.nullCount = 0 := by
    rw [Col.nullCount, List.countP_eq_zero]
    intro a ha
    have := hsome a ha
    cases a with
    | none => cases this
    | some v => simp
  refine ⟨?_, hzero, ?_⟩
  · intro i hi
    have hlt : i < c.cells.length := by omega
    have hx := hsome (c.cells.get ⟨i, hlt⟩) (List.get_mem _ _ _)
    rw [Col.isNullAt, List.getD_eq_getElem?_getD, List.getElem?_eq_getElem hlt]
    cases hcx : c.cells.get ⟨i, hlt⟩ with
    | none =>
      rw [hcx] at hx
      cases hx
    | some v =>
      rw [List.get_eq_getElem] at hcx
      rw [hcx]
      rfl
  · rw [adjNull, if_neg (by omega), hzero]

/-- A row in which some column is non-null is not a fully-null row. -/
theorem rowIsNull_false_of_col {t : Table} {c : Col} (hc : c ∈ t.cols)
    (hnn : ∀ i, i < t.nrows → c.isNullAt i = false) :
    ∀ i, i < t.nrows → t.rowIsNull i = false := by
  intro i hi
  rw [Bool.eq_false_iff]
  intro hall
  rw [Table.rowIsNull, List.all_eq_true] at hall
  have := hall c hc
  rw [hnn i hi] at this
  cases this

/-- With at least two index candidates present (on a coherent table with at
least one row), the reducer never promotes an index, never drops a row, and
never drops a candidate column. -/
theorem reduce_multi_candidates : ∀ (fuel : Nat) (u : Table)
    (r : Table × List ColStat × List FCRow),
    reduceGo fuel u = some r →
    (∀ c ∈ u.cols, c.cells.length = u.nrows) →
    1 ≤ u.nrows →
    2 ≤ (u.cols.filter (candPred u.nrows)).length →
    r.1.indexName = u.indexName ∧ r.1.nrows = u.nrows ∧
      ∀ c ∈ u.cols, candPred u.nrows c = true → c ∈ r.1.cols := by
  intro fuel
  induction fuel with
  | zero =>
    intro u r h
    simp [reduceGo] at h
  | succ m ih =>
    intro u r h hwf hpos hcand
    have hex : ∃ c0 ∈ u.cols, candPred u.nrows c0 = true := by
      rcases hfl : u.cols.filter (candPred u.nrows) with _ | ⟨c0, tl⟩
      · rw [hfl] at hcand
        simp at hcand
      · have hm : c0 ∈ u.cols.filter (candPred u.nrows) := by
          rw [hfl]
          exact List.mem_cons_self _ _
        have h0 := List.mem_filter.mp hm
        exact ⟨c0, h0.1, h0.2⟩
    obtain ⟨c0, hc0mem, hc0⟩ := hex
    have hc0u : adjUnique c0 = u.nrows := by
      have h0 := hc0
      rw [candPred, Bool.and_eq_true, decide_eq_true_eq] at h0
      exact h0.1
    have h2 : 2 ≤ u.nrows := by
      have hne := adjUnique_ne_one c0
      omega
    have hcf := cand_facts h2 hc0u (hwf c0 hc0mem)
    have hrow := rowIsNull_false_of_col hc0mem hcf.1
    have hfe : u.filterNullRows = u := filterNullRows_eq_self hwf hrow
    simp only [reduceGo, hfe] at h
    have hpc : promoCheck u = false := by
      rw [promoCheck]
      have hlen : (canBeIndex u).length = (u.cols.filter (candPred u.nrows)).length := by
        rw [canBeIndex, List.length_map]
      have hno : decide ((canBeIndex u).length = 1) = false := by
        simp only [decide_eq_false_iff_not]
        omega
      rw [hno, Bool.and_false]
    rw [if_neg (by simp [hpc])] at h
    have hkeepcand : ∀ c ∈ u.cols, candPred u.nrows c = true →
        (!decide (u.nrows / 2 ≤ adjNull u.nrows c)) = true := by
      intro c hc hcp
      rw [candPred, Bool.and_eq_true, decide_eq_true_eq] at hcp
      have hcf2 := cand_facts h2 hcp.1 (hwf c hc)
      rw [hcf2.2.2]
      simp only [Bool.not_eq_true', decide_eq_false_iff_not]
      omega
    by_cases hd : dropCheck u = true
    · rw [if_pos hd] at h
      have hfilter2 : ((dropHighNull u).cols.filter (candPred u.nrows))
          = u.cols.filter (candPred u.nrows) := by
        show ((u.cols.filter fun c => !decide (u.nrows / 2 ≤ adjNull u.nrows c)).filter
          (candPred u.nrows)) = _
        rw [List.filter_filter]
        apply List.filter_congr
        intro x hx
        cases hcx : candPred u.nrows x with
        | false => simp
        | true => simp [hkeepcand x hx hcx]
      have hwf2 : ∀ c ∈ (dropHighNull u).cols, c.cells.length = (dropHighNull u).nrows := by
        intro c hc
        exact hwf c (List.mem_filter.mp hc).1
      have hcand2 : 2 ≤ ((dropHighNull u).cols.filter (candPred (dropHighNull u).nrows)).length := by
        have : (dropHighNull u).nrows = u.nrows := rfl
        rw [this, hfilter2]
        exact hcand
      obtain ⟨ha, hb, hcc⟩ := ih _ _ h hwf2 hpos hcand2
      refine ⟨ha, hb, ?_⟩
      intro c hcm hcp
      have hmem2 : c ∈ (dropHighNull u).cols :=
        List.mem_filter.mpr ⟨hcm, hkeepcand c hcm hcp⟩
      exact hcc c hmem2 hcp
    · rw [if_neg hd] at h
      obtain rfl := Option.some_inj.mp h
      exact ⟨rfl, rfl, fun c hc _ => hc⟩

/-- C6 counterexample: a zero-row table with a default index and two
fully-unique (0 = 0) non-float columns — the ambiguity premises of the
claim hold, yet the reduction drops every column, so the final column
statistics are empty and report neither candidate as fully unique. -/
theorem c6_counterexample :
    tZeroRows.indexName = none ∧
    tZeroRows.indexCells = rangeIndex tZeroRows.nrows ∧
    2 ≤ (tZeroRows.cols.filter (candPred tZeroRows.nrows)).length ∧
    (reduceResult tZeroRows).1.indexName = none ∧
    (reduceResult tZeroRows).2.1 = [] ∧
    (reduceResult tZeroRows).1.cols = [] := by
  refine ⟨rfl, rfl, ?_, rfl, ?_, rfl⟩
  · decide
  · decide

/-- C6 amended: on every coherent table with a default sequential index, at
least one row, and more than one fully-unique non-float candidate column,
the reducer performs no index promotion (the final index name is still
`none`), the row count never changes, and every candidate survives to the
final state, where the final column statistics report it as fully unique
(its adjusted unique count equals the final row count).  The ambiguity is
only printed, which the value-level model ignores. -/
theorem c6_ambiguous_candidates (t : Table)
    (hwf : ∀ c ∈ t.cols, c.cells.length = t.nrows)
    (hname : t.indexName = none)
    (hrange : t.indexCells = rangeIndex t.nrows)
    (hpos : 1 ≤ t.nrows)
    (hcand : 2 ≤ (t.cols.filter (candPred t.nrows)).length) :
    (reduceResult t).1.indexName = none ∧
    (reduceResult t).1.nrows = t.nrows ∧
    t.indexCells = rangeIndex t.nrows ∧
    ∀ c ∈ t.cols, candPred t.nrows c = true →
      c ∈ (reduceResult t).1.cols ∧
      (⟨c.name, c.dtype, adjNull t.nrows c, adjUnique c⟩ : ColStat) ∈ (reduceResult t).2.1 ∧
      adjUnique c = (reduceResult t).1.nrows := by
  obtain ⟨ha, hb, hc⟩ := reduce_multi_candidates _ t _ (reduceGo_reduceResult t)
    hwf hpos hcand
  obtain ⟨_, _, _, hs, _⟩ := reduceResult_terminal t
  refine ⟨by rw [ha, hname], hb, hrange, ?_⟩
  intro c hcm hcp
  have hmem := hc c hcm hcp
  refine ⟨hmem, ?_, ?_⟩
  · rw [hs, columnsStatistics, ← hb]
    exact List.mem_map_of_mem
      (fun c => (⟨c.name, c.dtype, adjNull (reduceResult t).1.nrows c, adjUnique c⟩ : ColStat))
      hmem
  · rw [hb]
    rw [candPred, Bool.and_eq_true, decide_eq_true_eq] at hcp
    exact hcp.1

/-- Witness for C6's amended statement at `tTwoUnique`: no promotion
happens and candidate P survives into the final statistics. -/
theorem c6_ambiguous_candidates_witness :
    (reduceResult tTwoUnique).1.indexName = none ∧
    pCol ∈ (reduceResult tTwoUnique).1.cols ∧
    (⟨"P", "int64", 0, 2⟩ : ColStat) ∈ (reduceResult tTwoUnique).2.1 := by
  have h := c6_ambiguous_candidates tTwoUnique (by decide) (by decide) (by decide)
    (by decide) (by decide)
  have hp := h.2.2.2 pCol (by decide) (by decide)
  exact ⟨h.1, hp.1, hp.2.1⟩

/-- One promotion step of the fuelled recursion. -/
theorem reduceGo_promo {t : Table} (fuel : Nat)
    (h : promoCheck t.filterNullRows = true) :
    reduceGo (fuel + 1) t
      = reduceGo fuel (t.filterNullRows.setIndex (promoTarget t.filterNullRows)) := by
  simp only [reduceGo]
  rw [if_pos h]

/-- One pruning step of the fuelled recursion. -/
theorem reduceGo_drop {t : Table} (fuel : Nat)
    (hp : promoCheck t.filterNullRows = false) (hd : dropCheck t.filterNullRows = true) :
    reduceGo (fuel + 1) t = reduceGo fuel (dropHighNull t.filterNullRows) := by
  simp only [reduceGo]
  rw [if_neg (by simp [hp]), if_pos hd]

/-- The terminal step of the fuelled recursion. -/
theorem reduceGo_done {t : Table} (fuel : Nat)
    (hp : promoCheck t.filterNullRows = false) (hd : dropCheck t.filterNullRows = false) :
    reduceGo (fuel + 1) t = some (t.filterNullRows, columnsStatistics t.filterNullRows,
      featureCounts t.filterNullRows) := by
  simp only [reduceGo]
  rw [if_neg (by simp [hp]), if_neg (by simp [hd])]

/-- Filtering a table with no columns drops every row. -/
theorem filterNullRows_no_cols {t : Table} (ht : t.cols = []) :
    t.filterNullRows = ⟨t.indexName, [], []⟩ := by
  have hkeep : t.keepIdx = [] := by
    rw [Table.keepIdx, List.filter_eq_nil_iff]
    intro a _
    rw [Table.rowIsNull, ht]
    simp
  rw [Table.filterNullRows, hkeep, ht]
  rfl

/-- A table with no columns reduces in one pass to the empty 0 × 0 table. -/
theorem reduceGo_no_cols {t : Table} (ht : t.cols = []) (fuel : Nat) :
    reduceGo (fuel + 1) t
      = some (⟨t.indexName, [], []⟩, [], [⟨"Total", 0, 0, 0, 0⟩]) := by
  have hfil := filterNullRows_no_cols ht
  have hpc : promoCheck ⟨t.indexName, [], []⟩ = false := by
    have hl : (canBeIndex ⟨t.indexName, [], []⟩).length = 0 := rfl
    rw [promoCheck, hl]
    simp
  have hdc : dropCheck ⟨t.indexName, [], []⟩ = false := rfl
  have h := reduceGo_done fuel (by rw [hfil]; exact hpc) (by rw [hfil]; exact hdc)
  rw [h, hfil]
  simp [columnsStatistics, featureCounts, dtypeKeys, grandRow]

/-- `filterMap id` over a column of wrapped values unwraps them. -/
theorem filterMap_id_map_some {α β : Type} (f : α → β) (l : List α) :
    (l.map (fun a => some (f a))).filterMap id = l.map f := by
  induction l with
  | nil => rfl
  | cons a tl ih =>
    rw [List.map_cons,
      @List.filterMap_cons_some _ _ id (some (f a)) (tl.map fun a => some (f a)) (f a) rfl,
      ih, List.map_cons]

/-- `set_index` when the lookup of the column label succeeds. -/
theorem setIndex_found {t : Table} {nm : String} {c : Col}
    (h : t.cols.find? (fun c2 => decide (c2.name = nm)) = some c) :
    t.setIndex nm = ⟨some nm, c.cells, t.cols.filter (fun c2 => !decide (c2.name = nm))⟩ := by
  rw [Table.setIndex, h]

/-- C5: a table with a default sequential index and exactly three columns —
A holding all-distinct integers, B entirely null, C a single repeated
value — reduces by promoting A to the index and dropping B and C, whose
null counts were forced to the full row count because their unique counts
are ≤ 1; the final table has zero data columns (and, the columns gone, zero
rows). -/
theorem c5_promote_and_drop (n : Nat) (ints : List Int) (dB dC : String) (v : Val)
    (hn : ints.length = n) (hnodup : ints.Nodup) (h2 : 2 ≤ n) :
    (reduceResult ⟨none, rangeIndex n,
      [⟨"A", "int64", ints.map (fun k => some (Val.vInt k))⟩,
       ⟨"B", dB, List.replicate n none⟩,
       ⟨"C", dC, List.replicate n (some v)⟩]⟩).1 = ⟨some "A", [], []⟩ ∧
    Col.nunique ⟨"B", dB, List.replicate n none⟩ ≤ 1 ∧
    Col.nunique ⟨"C", dC, List.replicate n (some v)⟩ ≤ 1 ∧
    adjNull n ⟨"B", dB, List.replicate n none⟩ = n ∧
    adjNull n ⟨"C", dC, List.replicate n (some v)⟩ = n := by
  have hvinj : Function.Injective Val.vInt := fun a b hab => by injection hab
  have hnuA : Col.nunique ⟨"A", "int64", ints.map (fun k => some (Val.vInt k))⟩ = n := by
    simp only [Col.nunique, filterMap_id_map_some]
    rw [List.dedup_eq_self.mpr (hnodup.map hvinj), List.length_map, hn]
  have huA : adjUnique ⟨"A", "int64", ints.map (fun k => some (Val.vInt k))⟩ = n := by
    simp only [adjUnique, hnuA]
    rw [if_neg (by omega)]
  have hncA : Col.nullCount ⟨"A", "int64", ints.map (fun k => some (Val.vInt k))⟩ = 0 := by
    simp only [Col.nullCount, List.countP_map]
    exact List.countP_eq_zero.mpr (fun a _ => by simp [Function.comp])
  have hnuB : Col.nunique ⟨"B", dB, List.replicate n none⟩ ≤ 1 := by
    simp only [Col.nunique, filterMap_id_replicate_none]
    simp
  have hnuC : Col.nunique ⟨"C", dC, List.replicate n (some v)⟩ ≤ 1 := by
    simp only [Col.nunique, filterMap_id_replicate_some]
    exact dedup_replicate_length_le n v
  have huB : adjUnique ⟨"B", dB, List.replicate n none⟩ = 0 := by
    simp only [adjUnique]
    rw [if_pos hnuB]
  have huC : adjUnique ⟨"C", dC, List.replicate n (some v)⟩ = 0 := by
    simp only [adjUnique]
    rw [if_pos hnuC]
  have hanB : adjNull n ⟨"B", dB, List.replicate n none⟩ = n := by
    simp only [adjNull, huB]
    rw [if_pos (by omega)]
  have hanC : adjNull n ⟨"C", dC, List.replicate n (some v)⟩ = n := by
    simp only [adjNull, huC]
    rw [if_pos (by omega)]
  have hnr1 : Table.nrows ⟨none, rangeIndex n,
      [⟨"A", "int64", ints.map (fun k => some (Val.vInt k))⟩,
       ⟨"B", dB, List.replicate n none⟩,
       ⟨"C", dC, List.replicate n (some v)⟩]⟩ = n := by
    show (rangeIndex n).length = n
    unfold rangeIndex
    rw [List.length_map, List.length_range]
  have hAnn : ∀ i, i < n →
      (⟨"A", "int64", ints.map (fun k => some (Val.vInt k))⟩ : Col).isNullAt i = false := by
    intro i hi
    have hlt : i < ints.length := by omega
    simp only [Col.isNullAt]
    rw [getD_map_lt (fun k => some (Val.vInt k)) ints i hlt none]
    rfl
  have hwf1 : ∀ c ∈ ([⟨"A", "int64", ints.map (fun k => some (Val.vInt k))⟩,
      ⟨"B", dB, List.replicate n none⟩,
      ⟨"C", dC, List.replicate n (some v)⟩] : List Col), c.cells.length = n := by
    intro c hc
    fin_cases hc <;> simp [hn]
  have hrow1 := @rowIsNull_false_of_col
    ⟨none, rangeIndex n,
      [⟨"A", "int64", ints.map (fun k => some (Val.vInt k))⟩,
       ⟨"B", dB, List.replicate n none⟩,
       ⟨"C", dC, List.replicate n (some v)⟩]⟩
    ⟨"A", "int64", ints.map (fun k => some (Val.vInt k))⟩
    (by simp)
    (fun i hi => hAnn i (by rw [hnr1] at hi; exact hi))
  have hfe1 : Table.filterNullRows ⟨none, rangeIndex n,
      [⟨"A", "int64", ints.map (fun k => some (Val.vInt k))⟩,
       ⟨"B", dB, List.replicate n none⟩,
       ⟨"C", dC, List.replicate n (some v)⟩]⟩
      = ⟨none, rangeIndex n,
      [⟨"A", "int64", ints.map (fun k => some (Val.vInt k))⟩,
       ⟨"B", dB, List.replicate n none⟩,
       ⟨"C", dC, List.replicate n (some v)⟩]⟩ :=
    filterNullRows_eq_self (fun c hc => by rw [hnr1]; exact hwf1 c hc) hrow1
  have hpB : candPred n ⟨"B", dB, List.replicate n none⟩ = false := by
    simp only [candPred, huB]
    have h0 : decide ((0 : Nat) = n) = false := by
      simp only [decide_eq_false_iff_not]
      omega
    rw [h0, Bool.false_and]
  have hpC : candPred n ⟨"C", dC, List.replicate n (some v)⟩ = false := by
    simp only [candPred, huC]
    have h0 : decide ((0 : Nat) = n) = false := by
      simp only [decide_eq_false_iff_not]
      omega
    rw [h0, Bool.false_and]
  have hpA : candPred n ⟨"A", "int64", ints.map (fun k => some (Val.vInt k))⟩ = true := by
    simp [candPred, huA]
  have hcbi : canBeIndex ⟨none, rangeIndex n,
      [⟨"A", "int64", ints.map (fun k => some (Val.vInt k))⟩,
       ⟨"B", dB, List.replicate n none⟩,
       ⟨"C", dC, List.replicate n (some v)⟩]⟩ = ["A"] := by
    simp only [canBeIndex, hnr1]
    simp [List.filter_cons, hpA, hpB, hpC]
  have hpc1 : promoCheck ⟨none, rangeIndex n,
      [⟨"A", "int64", ints.map (fun k => some (Val.vInt k))⟩,
       ⟨"B", dB, List.replicate n none⟩,
       ⟨"C", dC, List.replicate n (some v)⟩]⟩ = true := by
    simp only [promoCheck, hcbi, hnr1]
    simp
  have hpt1 : promoTarget ⟨none, rangeIndex n,
      [⟨"A", "int64", ints.map (fun k => some (Val.vInt k))⟩,
       ⟨"B", dB, List.replicate n none⟩,
       ⟨"C", dC, List.replicate n (some v)⟩]⟩ = "A" := by
    simp only [promoTarget, hcbi]
    rfl
  have hfind : (([⟨"A", "int64", ints.map (fun k => some (Val.vInt k))⟩,
      ⟨"B", dB, List.replicate n none⟩,
      ⟨"C", dC, List.replicate n (some v)⟩] : List Col).find?
        (fun c2 => decide (c2.name = "A")))
      = some ⟨"A", "int64", ints.map (fun k => some (Val.vInt k))⟩ :=
    List.find?_cons_of_pos _ (by simp)
  have hsi : Table.setIndex ⟨none, rangeIndex n,
      [⟨"A", "int64", ints.map (fun k => some (Val.vInt k))⟩,
       ⟨"B", dB, List.replicate n none⟩,
       ⟨"C", dC, List.replicate n (some v)⟩]⟩ "A"
      = ⟨some "A", ints.map (fun k => some (Val.vInt k)),
         [⟨"B", dB, List.replicate n none⟩, ⟨"C", dC, List.replicate n (some v)⟩]⟩ := by
    rw [setIndex_found hfind]
    simp
  have e1 : reduceGo 4 ⟨none, rangeIndex n,
      [⟨"A", "int64", ints.map (fun k => some (Val.vInt k))⟩,
       ⟨"B", dB, List.replicate n none⟩,
       ⟨"C", dC, List.replicate n (some v)⟩]⟩
      = reduceGo 3 ⟨some "A", ints.map (fun k => some (Val.vInt k)),
         [⟨"B", dB, List.replicate n none⟩, ⟨"C", dC, List.replicate n (some v)⟩]⟩ := by
    have h := @reduceGo_promo ⟨none, rangeIndex n,
      [⟨"A", "int64", ints.map (fun k => some (Val.vInt k))⟩,
       ⟨"B", dB, List.replicate n none⟩,
       ⟨"C", dC, List.replicate n (some v)⟩]⟩ 3 (by rw [hfe1]; exact hpc1)
    rw [hfe1, hpt1, hsi] at h
    exact h
  have hnr2 : Table.nrows ⟨some "A", ints.map (fun k => some (Val.vInt k)),
      [⟨"B", dB, List.replicate n none⟩, ⟨"C", dC, List.replicate n (some v)⟩]⟩ = n := by
    simp [Table.nrows, hn]
  have hCnn : ∀ i, i < n →
      (⟨"C", dC, List.replicate n (some v)⟩ : Col).isNullAt i = false := by
    intro i hi
    simp only [Col.isNullAt]
    rw [List.getD_eq_getElem?_getD, List.getElem?_replicate, if_pos hi]
    rfl
  have hwf2 : ∀ c ∈ ([⟨"B", dB, List.replicate n none⟩,
      ⟨"C", dC, List.replicate n (some v)⟩] : List Col), c.cells.length = n := by
    intro c hc
    fin_cases hc <;> simp
  have hrow2 := @rowIsNull_false_of_col
    ⟨some "A", ints.map (fun k => some (Val.vInt k)),
      [⟨"B", dB, List.replicate n none⟩, ⟨"C", dC, List.replicate n (some v)⟩]⟩
    ⟨"C", dC, List.replicate n (some v)⟩
    (by simp)
    (fun i hi => hCnn i (by rw [hnr2] at hi; exact hi))
  have hfe2 : Table.filterNullRows ⟨some "A", ints.map (fun k => some (Val.vInt k)),
      [⟨"B", dB, List.replicate n none⟩, ⟨"C", dC, List.replicate n (some v)⟩]⟩
      = ⟨some "A", ints.map (fun k => some (Val.vInt k)),
      [⟨"B", dB, List.replicate n none⟩, ⟨"C", dC, List.replicate n (some v)⟩]⟩ :=
    filterNullRows_eq_self (fun c hc => by rw [hnr2]; exact hwf2 c hc) hrow2
  have hpc2 : promoCheck ⟨some "A", ints.map (fun k => some (Val.vInt k)),
      [⟨"B", dB, List.replicate n none⟩, ⟨"C", dC, List.replicate n (some v)⟩]⟩ = false := rfl
  have hle2 : n / 2 ≤ n := Nat.div_le_self n 2
  have hdc2 : dropCheck ⟨some "A", ints.map (fun k => some (Val.vInt k)),
      [⟨"B", dB, List.replicate n none⟩, ⟨"C", dC, List.replicate n (some v)⟩]⟩ = true := by
    simp only [dropCheck, highNullCols, hnr2]
    simp [List.filter_cons, hanB, hanC, hle2]
  have hdrop2 : dropHighNull ⟨some "A", ints.map (fun k => some (Val.vInt k)),
      [⟨"B", dB, List.replicate n none⟩, ⟨"C", dC, List.replicate n (some v)⟩]⟩
      = ⟨some "A", ints.map (fun k => some (Val.vInt k)), []⟩ := by
    simp only [dropHighNull, hnr2]
    simp [List.filter_cons, hanB, hanC, hle2]
  have e2 : reduceGo 3 ⟨some "A", ints.map (fun k => some (Val.vInt k)),
      [⟨"B", dB, List.replicate n none⟩, ⟨"C", dC, List.replicate n (some v)⟩]⟩
      = reduceGo 2 ⟨some "A", ints.map (fun k => some (Val.vInt k)), []⟩ := by
    have h := @reduceGo_drop ⟨some "A", ints.map (fun k => some (Val.vInt k)),
      [⟨"B", dB, List.replicate n none⟩, ⟨"C", dC, List.replicate n (some v)⟩]⟩ 2
      (by rw [hfe2]; exact hpc2) (by rw [hfe2]; exact hdc2)
    rw [hfe2, hdrop2] at h
    exact h
  have e3 : reduceGo 2 ⟨some "A", ints.map (fun k => some (Val.vInt k)), []⟩
      = some (⟨some "A", [], []⟩, [], [⟨"Total", 0, 0, 0, 0⟩]) :=
    @reduceGo_no_cols ⟨some "A", ints.map (fun k => some (Val.vInt k)), []⟩ rfl 1
  have hfinal : reduceResult ⟨none, rangeIndex n,
      [⟨"A", "int64", ints.map (fun k => some (Val.vInt k))⟩,
       ⟨"B", dB, List.replicate n none⟩,
       ⟨"C", dC, List.replicate n (some v)⟩]⟩
      = (⟨some "A", [], []⟩, [], [⟨"Total", 0, 0, 0, 0⟩]) := by
    show (reduceGo 4 ⟨none, rangeIndex n,
      [⟨"A", "int64", ints.map (fun k => some (Val.vInt k))⟩,
       ⟨"B", dB, List.replicate n none⟩,
       ⟨"C", dC, List.replicate n (some v)⟩]⟩).getD (emptyTable, [], []) = _
    rw [e1, e2, e3]
    rfl
  rw [hfinal]
  exact ⟨rfl, hnuB, hnuC, hanB, hanC⟩

/-- Witness for C5 at the concrete three-row instance `tABC`. -/
theorem c5_promote_and_drop_witness :
    (reduceResult tABC).1 = ⟨some "A", [], []⟩ ∧
    adjNull 3 ⟨"B", "float64", List.replicate 3 none⟩ = 3 ∧
    adjNull 3 ⟨"C", "object", List.replicate 3 (some (Val.vStr "x"))⟩ = 3 := by
  have h := c5_promote_and_drop 3 [1, 2, 3] "float64" "object" (Val.vStr "x")
    (by decide) (by decide) (by decide)
  exact ⟨h.1, h.2.2.2.1, h.2.2.2.2⟩

/-- A list whose prefix one element longer is known keeps its shorter
prefix. -/
theorem take_of_take_append {α : Type} {l res : List α} {x : α}
    (h : res.take (l ++ [x]).length = l ++ [x]) : res.take l.length = l := by
  have h1 : l.length ≤ (l ++ [x]).length := by
    rw [List.length_append]
    omega
  calc res.take l.length
      = (res.take (l ++ [x]).length).take l.length := by
        rw [List.take_take, Nat.min_eq_left h1]
    _ = (l ++ [x]).take l.length := by rw [h]
    _ = l := List.take_left l [x]

/-- The store-level fuel bound: same as for the value-level recursion. -/
theorem reduceStoreGo_isSome : ∀ (fuel : Nat) (store : List Table) (ref : Nat),
    (store.getD ref emptyTable).cols.length < fuel →
    (reduceStoreGo fuel store ref).isSome = true := by
  intro fuel
  induction fuel with
  | zero =>
    intro store ref h
    exact absurd h (Nat.not_lt_zero _)
  | succ m ih =>
    intro store ref h
    simp only [reduceStoreGo]
    by_cases hp : promoCheck (store.getD ref emptyTable).filterNullRows = true
    · rw [if_pos hp]
      apply ih
      rw [set_append_length, getD_append_length]
      have h1 := setIndex_cols_lt hp
      have h2 := filterNullRows_cols_length (store.getD ref emptyTable)
      omega
    · rw [if_neg hp]
      by_cases hd : dropCheck (store.getD ref emptyTable).filterNullRows = true
      · rw [if_pos hd]
        apply ih
        rw [set_append_length, getD_append_length]
        have h1 := dropHighNull_cols_lt hd
        have h2 := filterNullRows_cols_length (store.getD ref emptyTable)
        omega
      · rw [if_neg hd]
        rfl

/-- Every table that was already in the store when the call began is intact
in the final store: the function only ever appends a fresh filtered copy
and mutates that copy. -/
theorem reduceStoreGo_take : ∀ (fuel : Nat) (store : List Table) (ref : Nat)
    (res : List Table × List ColStat × List FCRow),
    reduceStoreGo fuel store ref = some res →
    res.1.take store.length = store := by
  intro fuel
  induction fuel with
  | zero =>
    intro store ref res h
    simp [reduceStoreGo] at h
  | succ m ih =>
    intro store ref res h
    simp only [reduceStoreGo] at h
    by_cases hp : promoCheck (store.getD ref emptyTable).filterNullRows = true
    · rw [if_pos hp, set_append_length] at h
      exact take_of_take_append (ih _ _ _ h)
    · rw [if_neg hp] at h
      by_cases hd : dropCheck (store.getD ref emptyTable).filterNullRows = true
      · rw [if_pos hd, set_append_length] at h
        exact take_of_take_append (ih _ _ _ h)
      · rw [if_neg hd] at h
        obtain rfl := Option.some_inj.mp h
        exact List.take_left store _

/-- C2 counterexample: reducing `tMut` (one droppable row, two droppable
columns) changes the internal table to the empty one, yet after the
store-level call the caller's stored object at the original reference is
the unchanged `tMut` — the caller's table does not reflect the drops. -/
theorem c2_counterexample :
    (reduceStore [tMut] 0).1.getD 0 emptyTable = tMut ∧
    (reduceResult tMut).1 ≠ tMut ∧
    (reduceResult tMut).1.cols = [] ∧
    tMut.cols.length = 2 := by
  refine ⟨?_, ?_, ?_, ?_⟩ <;> decide

/-- C2 amended: the reducer never mutates the caller's table.  Its first
statement `df = df[~null_rows]` rebinds the local name to a freshly
allocated filtered copy, so the in-place promotion and drops hit only that
copy; every pre-existing store entry — in particular the caller's — is
unchanged after the call, and the function returns only the statistics
pair `(columns_statistics, feature_counts)`, not the table. -/
theorem c2_caller_table_unchanged :
    ∀ (store : List Table) (ref : Nat),
      (reduceStore store ref).1.take store.length = store ∧
      (ref < store.length →
        (reduceStore store ref).1.getD ref emptyTable = store.getD ref emptyTable) ∧
      set_index_remove_null_columns (store.getD ref emptyTable)
        = (reduceResult (store.getD ref emptyTable)).2 := by
  intro store ref
  have hs := reduceStoreGo_isSome ((store.getD ref emptyTable).cols.length + 1) store ref
    (Nat.lt_succ_self _)
  obtain ⟨res, hres⟩ := Option.isSome_iff_exists.mp hs
  have htake := reduceStoreGo_take _ _ _ _ hres
  have hred : reduceStore store ref = res := by
    rw [reduceStore, hres]
    rfl
  refine ⟨by rw [hred]; exact htake, ?_, rfl⟩
  intro href
  rw [hred]
  have hget : res.1.getD ref emptyTable = (res.1.take store.length).getD ref emptyTable := by
    rw [List.getD_eq_getElem?_getD, List.getD_eq_getElem?_getD, List.getElem?_take,
      if_pos href]
  rw [hget, htake]

/-- Witness for C2's amended statement at the concrete one-table store. -/
theorem c2_caller_table_unchanged_witness :
    (reduceStore [tMut] 0).1.getD 0 emptyTable = [tMut].getD 0 emptyTable :=
  (c2_caller_table_unchanged [tMut] 0).2.1 (by decide)

/-- C8: the loader fetches at most once per dataset name.  The cache file
name appends `.csv` when absent; after a call the cache path exists; a call
that finds the cache file does not fetch; and a second call with the same
name reads the cached contents without fetching and leaves the filesystem
unchanged. -/
theorem c8_loader_caching (remoteCSV : String) (fs : FileSys)
    (projectPath name : String) :
    (endsWithCsv name = false → cacheFileName name = name ++ ".csv") ∧
    (load_exoplanet_data remoteCSV fs projectPath name).1.pathExists
      (cachePath projectPath name) = true ∧
    (fs.pathExists (cachePath projectPath name) = true →
      (load_exoplanet_data remoteCSV fs projectPath name).2.2 = false) ∧
    (load_exoplanet_data remoteCSV
        (load_exoplanet_data remoteCSV fs projectPath name).1 projectPath name).2.2
      = false ∧
    (load_exoplanet_data remoteCSV
        (load_exoplanet_data remoteCSV fs projectPath name).1 projectPath name).2.1
      = (load_exoplanet_data remoteCSV fs projectPath name).2.1 ∧
    (load_exoplanet_data remoteCSV
        (load_exoplanet_data remoteCSV fs projectPath name).1 projectPath name).1
      = (load_exoplanet_data remoteCSV fs projectPath name).1 := by
  have hunfold : ∀ g : FileSys, load_exoplanet_data remoteCSV g projectPath name =
      if g.pathExists (cachePath projectPath name) = true then
        (g, g.readFile (cachePath projectPath name), false)
      else
        (g.writeFile (cachePath projectPath name) remoteCSV,
         (g.writeFile (cachePath projectPath name) remoteCSV).readFile
           (cachePath projectPath name), true) := fun g => rfl
  have hwrite : ∀ (g : FileSys) (c : String),
      (g.writeFile (cachePath projectPath name) c).pathExists
        (cachePath projectPath name) = true := by
    intro g c
    simp [FileSys.writeFile, FileSys.pathExists]
  refine ⟨fun hend => by simp [cacheFileName, hend], ?_⟩
  by_cases h : fs.pathExists (cachePath projectPath name) = true
  · simp [hunfold, h]
  · have hfs1 := hwrite fs remoteCSV
    simp [hunfold, h, hfs1]

/-- Witness for C8 at a concrete name and an empty filesystem:
`pscomppars` gets the `.csv` suffix, the cache file exists after the first
call, and the second call does not fetch. -/
theorem c8_loader_caching_witness :
    cacheFileName "pscomppars" = "pscomppars.csv" ∧
    (load_exoplanet_data "data" ⟨[]⟩ "proj" "pscomppars").1.pathExists
      (cachePath "proj" "pscomppars") = true ∧
    (load_exoplanet_data "data"
      (load_exoplanet_data "data" ⟨[]⟩ "proj" "pscomppars").1 "proj" "pscomppars").2.2
      = false := by
  have h := c8_loader_caching "data" ⟨[]⟩ "proj" "pscomppars"
  exact ⟨h.1 (by decide), h.2.1, h.2.2.2.1⟩
